import Mathlib

/-!
Verification development for the html-parser repository
(single source file: src/lib/parser.ts).

The parser works over a mutable cursor holding the remaining source
string.  We embed strings as List Char and the cursor-mutating
functions as functions returning the new remaining source.  Each
JavaScript regular expression used by the source is embedded as a
recursive Lean function whose doc comment records the regex and the
JS matching semantics it implements (anchored lazy and greedy
quantifiers, the dot not matching line terminators, character
classes matching line terminators, leftmost-match scanning for
global and unanchored regexes).

Fallible code is embedded with Except: the source can raise two
kinds of runtime faults, the explicit throw on the child-collection
loop guard, and a TypeError when a null regex-match result is
dereferenced (the non-null assertions on lines 102 and 137 of
parser.ts).
-/

/-- Characters of the whitespace class used by removeHeadSpaces,
the JS regex class of tab, carriage return, newline, form feed and
space. -/
def isCtxSpace (c : Char) : Bool :=
  c = '\t' || c = '\r' || c = '\n' || c = '\x0c' || c = ' '

/-- JS line terminators, the characters the regex dot does not match:
line feed, carriage return, U+2028 and U+2029. -/
def isLineTerm (c : Char) : Bool :=
  c = '\n' || c = '\r' || c = '\u2028' || c = '\u2029'

/-- ASCII alphanumeric, the class a-z0-9 under the case-insensitive
flag that every tag regex of the source carries. -/
def isAlnum (c : Char) : Bool :=
  ('a' ≤ c && c ≤ 'z') || ('A' ≤ c && c ≤ 'Z') || ('0' ≤ c && c ≤ '9')

/-- Whitespace removed by the JS String trim method: ASCII
whitespace, NBSP, BOM, the Unicode space separators and the two JS
line separators. -/
def isJsWhite (c : Char) : Bool :=
  c = '\t' || c = '\n' || c = '\x0b' || c = '\x0c' || c = '\r' || c = ' ' ||
  c = '\u00a0' || c = '\u1680' || ('\u2000' ≤ c && c ≤ '\u200a') ||
  c = '\u2028' || c = '\u2029' || c = '\u202f' || c = '\u205f' ||
  c = '\u3000' || c = '\ufeff'

/-- JS String trim: drop a maximal run of JS whitespace from both
ends. -/
def jsTrim (s : List Char) : List Char :=
  ((s.dropWhile isJsWhite).reverse.dropWhile isJsWhite).reverse

/-- removeHeadSpaces from parser.ts: cut the maximal leading run of
tab, CR, LF, FF and space characters. -/
def removeHeadSpaces (s : List Char) : List Char :=
  s.dropWhile isCtxSpace

/-- cutHeadStr from parser.ts: drop the first n characters of the
remaining source. -/
def cutHeadStr (s : List Char) (n : Nat) : List Char :=
  s.drop n

/-- Core of every anchored lazy match up to a closing angle bracket.
Returns the shortest prefix of s that ends at the first greater-than
character, provided no line terminator occurs before it; none when
there is no such character on the current line.  This is the lazy
dot-star (or the tail of a lazy dot-plus) followed by the literal
greater-than in the source regexes. -/
def takeToGt : List Char → Option (List Char)
  | [] => none
  | c :: cs =>
    if c = '>' then some ['>']
    else if isLineTerm c then none
    else (takeToGt cs).map (fun t => c :: t)

/-- The test of the open-tag probe regex of findNextElement
(caret, less-than, one or more alphanumerics): does the source start
with a less-than followed by an alphanumeric character. -/
def startsWithLtAlnum : List Char → Bool
  | '<' :: c :: _ => isAlnum c
  | _ => false

/-- The whole-tag regex of findNextElement (caret, less-than, lazy
dot-plus, greater-than): the shortest prefix that starts with a
less-than, has at least one further character, and ends at a
greater-than, with no line terminator in between.  none embeds a null
match result, which the source dereferences, raising a TypeError. -/
def matchTagAll : List Char → Option (List Char)
  | '<' :: c :: rest =>
    if isLineTerm c then none
    else (takeToGt rest).map (fun t => '<' :: c :: t)
  | _ => none

/-- The close-tag consumption regex of isNextCloseTag (caret,
less-than, slash, lazy dot-plus, greater-than). -/
def matchCloseTagAll : List Char → Option (List Char)
  | '<' :: '/' :: c :: rest =>
    if isLineTerm c then none
    else (takeToGt rest).map (fun t => '<' :: '/' :: c :: t)
  | _ => none

/-- Character class of the close-tag name regex: everything except
tab, CR, LF, FF, space, slash and greater-than. -/
def isCloseNameChar (c : Char) : Bool :=
  !(c = '\t' || c = '\r' || c = '\n' || c = '\x0c' || c = ' ' || c = '/' || c = '>')

/-- The close-tag name probe of isNextCloseTag: caret, less-than,
slash, then a captured group of one alphanumeric followed by a
greedy run of name characters.  Returns the captured name. -/
def matchCloseTagName : List Char → Option (List Char)
  | '<' :: '/' :: c :: rest =>
    if isAlnum c then some (c :: rest.takeWhile isCloseNameChar) else none
  | _ => none

/-- The leading-text group shared by the three text-then-tag
classifier regexes: a lazy nonempty run of characters other than
less-than, followed by the tag part starting at a less-than.  The
lazy group is forced to stop at the first less-than, so the split is
(text before the first less-than, rest from that less-than), defined
only when both parts are nonempty. -/
def splitAtFirstLt (s : List Char) : Option (List Char × List Char) :=
  let t := s.takeWhile (fun c => !(c = '<'))
  let r := s.dropWhile (fun c => !(c = '<'))
  if t = [] || r = [] then none else some (t, r)

/-- Lazy scan to the literal three-character sequence space, slash,
greater-than used by the self-closing-tag classifier regex: shortest
prefix ending with that sequence, chars before it not line
terminators. -/
def takeToSelfClose : List Char → Option (List Char)
  | ' ' :: '/' :: '>' :: _ => some [' ', '/', '>']
  | c :: cs =>
    if isLineTerm c then none
    else (takeToSelfClose cs).map (fun t => c :: t)
  | [] => none

/-- isStartOrSelfFinishTag from parser.ts, the regex caret,
less-than, alnum, lazy dot-star, greedy slash-star, greater-than.
The slash-star can match the empty string, so the whole pattern
matches the shortest prefix from a less-than plus alnum to the first
greater-than on the line.  Returns the matched tag text. -/
def isStartOrSelfFinishTag : List Char → Option (List Char)
  | '<' :: c :: rest =>
    if isAlnum c then (takeToGt rest).map (fun t => '<' :: c :: t) else none
  | _ => none

/-- isFinishTag from parser.ts, the regex caret, less-than, slash,
alnum, lazy dot-star, greater-than. -/
def isFinishTag : List Char → Option (List Char)
  | '<' :: '/' :: c :: rest =>
    if isAlnum c then (takeToGt rest).map (fun t => '<' :: '/' :: c :: t) else none
  | _ => none

/-- isTextAndSelfCloseTag from parser.ts: lazy nonempty non-less-than
text, then less-than, alnum, lazy dot-star, the literal sequence
space slash greater-than.  Returns (text group, tag group). -/
def isTextAndSelfCloseTag (s : List Char) : Option (List Char × List Char) :=
  match splitAtFirstLt s with
  | none => none
  | some (text, r) =>
    match r with
    | '<' :: c :: rest =>
      if isAlnum c then (takeToSelfClose rest).map (fun t => (text, '<' :: c :: t))
      else none
    | _ => none

/-- isTextAndFinishTag from parser.ts: lazy nonempty non-less-than
text, then less-than, slash, alnum, lazy dot-star, greater-than. -/
def isTextAndFinishTag (s : List Char) : Option (List Char × List Char) :=
  match splitAtFirstLt s with
  | none => none
  | some (text, r) =>
    match r with
    | '<' :: '/' :: c :: rest =>
      if isAlnum c then (takeToGt rest).map (fun t => (text, '<' :: '/' :: c :: t))
      else none
    | _ => none

/-- isTextAndStartTag from parser.ts: lazy nonempty non-less-than
text, then less-than, alnum, lazy dot-star, greater-than. -/
def isTextAndStartTag (s : List Char) : Option (List Char × List Char) :=
  match splitAtFirstLt s with
  | none => none
  | some (text, r) =>
    match r with
    | '<' :: c :: rest =>
      if isAlnum c then (takeToGt rest).map (fun t => (text, '<' :: c :: t))
      else none
    | _ => none

/-- Is there a greater-than character before the first line
terminator (the greedy dot-star plus greater-than tail of the
getTagName regex). -/
def hasGtBeforeLineTerm : List Char → Bool
  | [] => false
  | c :: cs => if c = '>' then true else if isLineTerm c then false else hasGtBeforeLineTerm cs

/-- One attempted match of the getTagName regex body at a position
just after a less-than: greedy slash-star, then a captured greedy
nonempty alphanumeric run, then greedy dot-star and greater-than.
Backtracking cannot shorten the slash run (a slash is not
alphanumeric), so the name starts right after the maximal slash run;
the dot-star requires some greater-than later on the same line. -/
def tagNameAt (rest : List Char) : Option (List Char) :=
  let r2 := rest.dropWhile (fun c => c = '/')
  let name := r2.takeWhile isAlnum
  if name = [] then none
  else if hasGtBeforeLineTerm (r2.drop name.length) then some name
  else none

/-- Unanchored leftmost-match scan of the getTagName regex: try each
position left to right; a match can only start at a less-than. -/
def findTagNameFrom : List Char → Option (List Char)
  | [] => none
  | '<' :: rest =>
    (match tagNameAt rest with
     | some name => some name
     | none => findTagNameFrom rest)
  | _ :: rest => findTagNameFrom rest

/-- getTagName from parser.ts: a string with no less-than is
returned unchanged; otherwise the captured name of the first match
of the tag-name regex, or empty when there is no match. -/
def getTagName (tag : List Char) : List Char :=
  if !(tag.contains '<') then tag
  else
    match findTagNameFrom tag with
    | some name => name
    | none => []

/-- Character class of the attribute-key part of the getProps regex:
everything except double quote, single quote and space. -/
def attrKeyChar (c : Char) : Bool :=
  !(c = '"' || c = '\'' || c = ' ')

/-- One attempted match of the getProps regex at the current
position: greedy key-class run, literal equals, double quote, lazy
nonempty non-quote run, double quote.  The literal equals must land
on the last character of the maximal key-class run (an equals lies
in the class, and no in-class character is a double quote), so the
match succeeds exactly when the maximal run has length at least two,
ends with an equals, and is followed by a double-quoted nonempty
value.  Returns the full matched text. -/
def matchAttrAt (s : List Char) : Option (List Char) :=
  let run := s.takeWhile attrKeyChar
  if 2 ≤ run.length ∧ run.getLast? = some '=' then
    match s.drop run.length with
    | '"' :: v1 :: vrest =>
      if v1 = '"' then none
      else
        let vtail := vrest.takeWhile (fun c => !(c = '"'))
        match vrest.drop vtail.length with
        | '"' :: _ => some (run ++ '"' :: v1 :: (vtail ++ ['"']))
        | _ => none
    | _ => none
  else none

/-- Global scan of the getProps regex: leftmost match, then continue
after its end; on failure advance one position.  Structured with
explicit fuel so that the definition computes by kernel reduction;
every step consumes at least one character, so fuel equal to the
length of the string never runs out. -/
def scanAttrsF : Nat → List Char → List (List Char)
  | 0, _ => []
  | _ + 1, [] => []
  | fuel + 1, c :: cs =>
    match matchAttrAt (c :: cs) with
    | some m => m :: scanAttrsF fuel ((c :: cs).drop m.length)
    | none => scanAttrsF fuel cs

/-- All matches of the getProps attribute regex, left to right. -/
def scanAttrs (s : List Char) : List (List Char) :=
  scanAttrsF s.length s

/-- JS String split on the separator equals: every occurrence splits,
no limit, empty parts kept. -/
def jsSplitEq : List Char → List (List Char)
  | [] => [[]]
  | c :: cs =>
    if c = '=' then [] :: jsSplitEq cs
    else
      match jsSplitEq cs with
      | [] => [[c]]
      | p :: ps => (c :: p) :: ps

/-- A quote character of the value-stripping regex class: double or
single quote. -/
def isQuoteChar (c : Char) : Bool :=
  c = '"' || c = '\''

/-- Index of the last quote character before the first line
terminator, the landing point of the greedy dot-plus of the
value-stripping regex. -/
def lastQuoteIdx : List Char → Option Nat
  | [] => none
  | c :: cs =>
    if isLineTerm c then none
    else
      match lastQuoteIdx cs with
      | some k => some (k + 1)
      | none => if isQuoteChar c then some 0 else none

/-- Global replace of the value-stripping regex (quote, greedy
nonempty dot run, quote, replaced by the captured run): at a quote
character, the greedy dot-plus reaches to the last quote on the line
at distance at least two; on a match, emit the characters between
the two quotes and continue after the closing one; otherwise emit
the character and move on.  Fuel as in scanAttrsF. -/
def replQuotesF : Nat → List Char → List Char
  | 0, s => s
  | _ + 1, [] => []
  | fuel + 1, c :: cs =>
    if isQuoteChar c then
      match lastQuoteIdx cs with
      | some k =>
        if 1 ≤ k then cs.take k ++ replQuotesF fuel (cs.drop (k + 1))
        else c :: replQuotesF fuel cs
      | none => c :: replQuotesF fuel cs
    else c :: replQuotesF fuel cs

/-- The global quote-stripping substitution applied to attribute
values in getProps. -/
def replQuotes (s : List Char) : List Char :=
  replQuotesF s.length s

/-- AttributeNode from parser.ts (the type discriminant is encoded
by the Lean type itself). -/
structure AttributeNode where
  name : List Char
  value : List Char
deriving DecidableEq, Repr

/-- getProps from parser.ts: map each match of the attribute regex
to an AttributeNode through the JS destructuring of split on equals
(key is part 0, value is part 1) and the quote-stripping
substitution.  Every match contains an equals, so part 1 exists. -/
def getProps (tag : List Char) : List AttributeNode :=
  (scanAttrs tag).map fun attr =>
    let parts := jsSplitEq attr
    { name := parts.getD 0 [], value := replQuotes (parts.getD 1 []) }

/-- The self-closing test of findNextElement, the regex space,
slash, greater-than, end-anchor: the tag text read backwards starts
with greater-than, slash, space. -/
def isSelfClosingTag (tag : List Char) : Bool :=
  List.isPrefixOf ['>', '/', ' '] tag.reverse

/-- A runtime node value: element, text or attribute (NodeTypes of
parser.ts).  Attributes are included so that the shape of children
lists is a provable property rather than one imposed by typing. -/
inductive PNode where
  | text (content : List Char)
  | element (tag : List Char) (tagName : List Char) (isSelfClosing : Bool)
      (props : List AttributeNode) (children : List PNode)
  | attribute (name : List Char) (value : List Char)

/-- The element record built by findNextElement, before its children
are assigned (children start as the empty list in the source). -/
structure ElementData where
  tag : List Char
  tagName : List Char
  isSelfClosing : Bool
  props : List AttributeNode
deriving DecidableEq, Repr

/-- Attach a children list to an element record, producing the node
that parseNode returns. -/
def ElementData.toNode (e : ElementData) (children : List PNode) : PNode :=
  PNode.element e.tag e.tagName e.isSelfClosing e.props children

/-- The element record construction of findNextElement lines
109-116. -/
def mkElement (tag : List Char) : ElementData :=
  { tag := tag
    tagName := getTagName tag
    isSelfClosing := isSelfClosingTag tag
    props := getProps tag }

/-- The two ways an evaluation of the source can abort: the explicit
throw on the loop guard of parseNode (the unbounded-loop fault), and
the TypeError raised when a null regex-match result is dereferenced
(lines 102 and 137 of parser.ts). -/
inductive Fault where
  | loopFault
  | typeError
deriving DecidableEq, Repr

/-- findNextElement from parser.ts.  Skip whitespace; if the source
does not start with less-than plus alnum, return null with the
cursor left after the whitespace skip.  Otherwise match the whole
tag (a null match here is dereferenced: TypeError), cut it, skip
whitespace again, and return the element record. -/
def findNextElement (s0 : List Char) : Except Fault (Option ElementData × List Char) :=
  let s := removeHeadSpaces s0
  if startsWithLtAlnum s then
    match matchTagAll s with
    | none => .error .typeError
    | some tag => .ok (some (mkElement tag), removeHeadSpaces (cutHeadStr s tag.length))
  else .ok (none, s)

/-- The record returned by getNextTextAndElement. -/
structure TextAndElement where
  text : List Char
  tag : List Char
  tagName : List Char
  selftag : List Char
deriving DecidableEq, Repr

/-- The five-way priority classification of getNextTextAndElement,
applied to the whitespace-skipped source (the function strips head
spaces before classifying and performs no other cursor mutation).
Cases in source order: start-or-self-closing tag; finish tag; text
then self-closing tag (text trimmed); text then finish tag (text
trimmed); text then start tag (text not trimmed); otherwise all
fields empty. -/
def classify (s : List Char) : TextAndElement :=
  match isStartOrSelfFinishTag s with
  | some tag => { text := [], tag := tag, tagName := getTagName tag, selftag := [] }
  | none =>
  match isFinishTag s with
  | some _ => { text := [], tag := [], tagName := [], selftag := [] }
  | none =>
  match isTextAndSelfCloseTag s with
  | some (text, selftag) => { text := jsTrim text, tag := [], tagName := [], selftag := selftag }
  | none =>
  match isTextAndFinishTag s with
  | some (text, _) => { text := jsTrim text, tag := [], tagName := [], selftag := [] }
  | none =>
  match isTextAndStartTag s with
  | some (text, tag) => { text := text, tag := tag, tagName := getTagName tag, selftag := [] }
  | none => { text := [], tag := [], tagName := getTagName [], selftag := [] }

/-- getNextTextAndElement from parser.ts: strip head whitespace,
classify, return the record together with the (stripped) remaining
source. -/
def getNextTextAndElement (s0 : List Char) : TextAndElement × List Char :=
  (classify (removeHeadSpaces s0), removeHeadSpaces s0)

/-- isNextCloseTag from parser.ts.  Strip head whitespace (this
mutation persists whatever the outcome).  If the close-tag name
probe matches and the captured name equals the expected tag name,
consume the full close-tag text (a null match of the consumption
regex is dereferenced: TypeError) and report true; otherwise report
false. -/
def isNextCloseTag (s0 : List Char) (tagName : List Char) :
    Except Fault (Bool × List Char) :=
  let s := removeHeadSpaces s0
  match matchCloseTagName s with
  | none => .ok (false, s)
  | some findTagName =>
    if findTagName = tagName then
      match matchCloseTagAll s with
      | none => .error .typeError
      | some t => .ok (true, cutHeadStr s t.length)
    else .ok (false, s)

mutual

/-- Fuel-indexed embedding of parseNode from parser.ts.  The fuel
only bounds the recursion depth so that the definition is structural
and computes by kernel reduction; parseNodeF_total below shows a
fuel of 32 * length + 32 can never run out (none embeds running
out, not any behaviour of the source).  parseNode: find the next
element (null propagates as a null result, a fault propagates); a
self-closing element is returned at once with empty children;
otherwise collect children with parseLoopF and assign them. -/
def parseNodeF : Nat → List Char → Option (Except Fault (Option PNode × List Char))
  | 0, _ => none
  | fuel + 1, s =>
    match findNextElement s with
    | .error f => some (.error f)
    | .ok (none, s1) => some (.ok (none, s1))
    | .ok (some e, s1) =>
      if e.isSelfClosing then some (.ok (some (e.toNode []), s1))
      else
        match parseLoopF fuel s1 e.tagName 0 with
        | none => none
        | some (.error f) => some (.error f)
        | some (.ok (children, s2)) => some (.ok (some (e.toNode children), s2))

/-- One iteration of the while loop of parseNode (lines 65-89 of
parser.ts), collecting the children of the element whose tag name is
parentTag; count is the value of counter.count at entry.  Strip head
spaces; classify; if the classifier text is nonempty, cut it from
the source and emit a TextNode; if the classifier tag is nonempty,
recurse into parseNode and emit its node when non-null; then probe
for the matching close tag: on a match the loop ends, otherwise the
counter is bumped and the loop continues, unless it has exceeded 30,
which raises the unbounded-loop fault. -/
def parseLoopF : Nat → List Char → List Char → Nat →
    Option (Except Fault (List PNode × List Char))
  | 0, _, _, _ => none
  | fuel + 1, s, parentTag, count =>
    match getNextTextAndElement (removeHeadSpaces s) with
    | (te, s2) =>
      let s3 := if te.text = [] then s2 else cutHeadStr s2 te.text.length
      let kids0 : List PNode := if te.text = [] then [] else [PNode.text te.text]
      match (if te.tag = [] then some (Except.ok (none, s3)) else parseNodeF fuel s3) with
      | none => none
      | some (.error f) => some (.error f)
      | some (.ok (mynode, s4)) =>
        let kids1 := kids0 ++ (match mynode with | some n => [n] | none => [])
        match isNextCloseTag s4 parentTag with
        | .error f => some (.error f)
        | .ok (true, s5) => some (.ok (kids1, s5))
        | .ok (false, s5) =>
          if count + 1 > 30 then some (.error .loopFault)
          else
            match parseLoopF fuel s5 parentTag (count + 1) with
            | none => none
            | some (.error f) => some (.error f)
            | some (.ok (kidsRest, s6)) => some (.ok (kids1 ++ kidsRest, s6))

end

/-- The fuel supplied to parseNodeF by the top-level wrapper. -/
def parseFuel (s : List Char) : Nat :=
  32 * s.length + 32

/-- parseNode from parser.ts, at the fuel that parseNodeF_total
proves sufficient; the default of getD is unreachable. -/
def parseNode (s : List Char) : Except Fault (Option PNode × List Char) :=
  (parseNodeF (parseFuel s) s).getD (.error .loopFault)


/-! Length facts about the consumption primitives, feeding the
totality proof for the parse engine. -/

theorem length_dropWhile_le {a : Type} (p : a → Bool) :
    ∀ s : List a, (s.dropWhile p).length ≤ s.length := by
  intro s
  induction s with
  | nil => simp
  | cons c cs ih =>
    rw [List.dropWhile_cons]
    by_cases h : p c
    · simp only [h, if_true]
      exact Nat.le_trans ih (Nat.le_succ _)
    · simp [h]

theorem removeHeadSpaces_length_le (s : List Char) :
    (removeHeadSpaces s).length ≤ s.length :=
  length_dropWhile_le isCtxSpace s

theorem takeToGt_bounds : ∀ s t : List Char, takeToGt s = some t →
    1 ≤ t.length ∧ t.length ≤ s.length := by
  intro s
  induction s with
  | nil => intro t h; simp [takeToGt] at h
  | cons c cs ih =>
    intro t h
    unfold takeToGt at h
    split at h
    · cases h; simp
    · split at h
      · exact absurd h (by simp)
      · cases hm : takeToGt cs with
        | none => rw [hm] at h; simp at h
        | some u =>
          rw [hm] at h
          simp only [Option.map_some', Option.some.injEq] at h
          obtain ⟨h1, h2⟩ := ih u hm
          subst h
          refine ⟨by simp, ?_⟩
          simp only [List.length_cons]
          omega

theorem matchTagAll_bounds : ∀ s t : List Char, matchTagAll s = some t →
    3 ≤ t.length ∧ t.length ≤ s.length := by
  intro s t h
  unfold matchTagAll at h
  split at h
  · rename_i c rest
    split at h
    · exact absurd h (by simp)
    · cases hm : takeToGt rest with
      | none => rw [hm] at h; simp at h
      | some u =>
        rw [hm] at h
        simp only [Option.map_some', Option.some.injEq] at h
        obtain ⟨h1, h2⟩ := takeToGt_bounds rest u hm
        subst h
        simp only [List.length_cons]
        omega
  · exact absurd h (by simp)


theorem findNextElement_some_length : ∀ s : List Char, ∀ e : ElementData, ∀ s1 : List Char,
    findNextElement s = .ok (some e, s1) → s1.length + 3 ≤ s.length := by
  intro s e s1 h
  unfold findNextElement at h
  simp only at h
  split at h
  · cases hm : matchTagAll (removeHeadSpaces s) with
    | none => rw [hm] at h; simp at h
    | some tag =>
      rw [hm] at h
      simp only [Except.ok.injEq, Prod.mk.injEq, Option.some.injEq] at h
      obtain ⟨he, hs1⟩ := h
      obtain ⟨h3, hle⟩ := matchTagAll_bounds _ _ hm
      have hstrip := removeHeadSpaces_length_le s
      have hcut : (cutHeadStr (removeHeadSpaces s) tag.length).length
          = (removeHeadSpaces s).length - tag.length := by
        simp [cutHeadStr]
      have h2 := removeHeadSpaces_length_le (cutHeadStr (removeHeadSpaces s) tag.length)
      subst hs1
      omega
  · simp at h

theorem findNextElement_none_length : ∀ s s1 : List Char,
    findNextElement s = .ok (none, s1) → s1.length ≤ s.length := by
  intro s s1 h
  unfold findNextElement at h
  simp only at h
  split at h
  · cases hm : matchTagAll (removeHeadSpaces s) with
    | none => rw [hm] at h; simp at h
    | some tag => rw [hm] at h; simp at h
  · simp only [Except.ok.injEq, Prod.mk.injEq] at h
    obtain ⟨_, hs1⟩ := h
    subst hs1
    exact removeHeadSpaces_length_le s

theorem isNextCloseTag_length : ∀ s tg : List Char, ∀ b : Bool, ∀ s1 : List Char,
    isNextCloseTag s tg = .ok (b, s1) → s1.length ≤ s.length := by
  intro s tg b s1 h
  unfold isNextCloseTag at h
  simp only at h
  have hstrip := removeHeadSpaces_length_le s
  split at h
  · simp only [Except.ok.injEq, Prod.mk.injEq] at h
    obtain ⟨_, hs1⟩ := h
    subst hs1
    exact hstrip
  · split at h
    · split at h
      · simp at h
      · simp only [Except.ok.injEq, Prod.mk.injEq] at h
        obtain ⟨_, hs1⟩ := h
        subst hs1
        simp only [cutHeadStr, List.length_drop]
        omega
    · simp only [Except.ok.injEq, Prod.mk.injEq] at h
      obtain ⟨_, hs1⟩ := h
      subst hs1
      exact hstrip

theorem getNextTextAndElement_snd (s : List Char) :
    (getNextTextAndElement s).2 = removeHeadSpaces s := rfl

theorem parseF_length : ∀ fuel : Nat,
    (∀ s : List Char, ∀ x : Option PNode, ∀ s1 : List Char,
        parseNodeF fuel s = some (.ok (x, s1)) → s1.length ≤ s.length) ∧
    (∀ s tg : List Char, ∀ c : Nat, ∀ kids : List PNode, ∀ s1 : List Char,
        parseLoopF fuel s tg c = some (.ok (kids, s1)) → s1.length ≤ s.length) := by
  intro fuel
  induction fuel with
  | zero =>
    constructor
    · intro s x s1 h; simp [parseNodeF] at h
    · intro s tg c kids s1 h; simp [parseLoopF] at h
  | succ fuel ih =>
    obtain ⟨ihN, ihL⟩ := ih
    constructor
    · intro s x s1 h
      simp only [parseNodeF] at h
      cases hfe : findNextElement s with
      | error f => rw [hfe] at h; simp at h
      | ok p =>
        obtain ⟨oe, s2⟩ := p
        rw [hfe] at h
        cases oe with
        | none =>
          simp only [Option.some.injEq, Except.ok.injEq, Prod.mk.injEq] at h
          obtain ⟨_, hs1⟩ := h
          subst hs1
          exact findNextElement_none_length _ _ hfe
        | some e =>
          have hlen := findNextElement_some_length _ _ _ hfe
          simp only at h
          by_cases hsc : e.isSelfClosing
          · rw [if_pos hsc] at h
            simp only [Option.some.injEq, Except.ok.injEq, Prod.mk.injEq] at h
            obtain ⟨_, hs1⟩ := h
            subst hs1
            omega
          · rw [if_neg hsc] at h
            cases hloop : parseLoopF fuel s2 e.tagName 0 with
            | none => rw [hloop] at h; simp at h
            | some r =>
              rw [hloop] at h
              cases r with
              | error f => simp at h
              | ok q =>
                obtain ⟨children, s3⟩ := q
                simp only [Option.some.injEq, Except.ok.injEq, Prod.mk.injEq] at h
                obtain ⟨_, hs1⟩ := h
                subst hs1
                have := ihL _ _ _ _ _ hloop
                omega
    · intro s tg c kids s1 h
      simp only [parseLoopF, getNextTextAndElement] at h
      set te := classify (removeHeadSpaces (removeHeadSpaces s)) with hte
      set s2 := removeHeadSpaces (removeHeadSpaces s) with hs2
      have hs2le : s2.length ≤ s.length :=
        Nat.le_trans (removeHeadSpaces_length_le _) (removeHeadSpaces_length_le s)
      set s3 := if te.text = [] then s2 else cutHeadStr s2 te.text.length with hs3
      have hs3le : s3.length ≤ s.length := by
        rw [hs3]
        split
        · exact hs2le
        · simp only [cutHeadStr, List.length_drop]
          omega
      by_cases htag : te.tag = []
      · rw [if_pos htag] at h
        simp only at h
        cases hnc : isNextCloseTag s3 tg with
        | error f => rw [hnc] at h; simp at h
        | ok p =>
          obtain ⟨b, s5⟩ := p
          rw [hnc] at h
          have hs5le := isNextCloseTag_length _ _ _ _ hnc
          cases b with
          | true =>
            simp only [Option.some.injEq, Except.ok.injEq, Prod.mk.injEq] at h
            obtain ⟨_, hs1⟩ := h
            subst hs1
            omega
          | false =>
            simp only at h
            split at h
            · simp at h
            · cases hrec : parseLoopF fuel s5 tg (c + 1) with
              | none => rw [hrec] at h; simp at h
              | some r =>
                rw [hrec] at h
                cases r with
                | error f => simp at h
                | ok q =>
                  obtain ⟨kidsRest, s6⟩ := q
                  simp only [Option.some.injEq, Except.ok.injEq, Prod.mk.injEq] at h
                  obtain ⟨_, hs1⟩ := h
                  subst hs1
                  have := ihL _ _ _ _ _ hrec
                  omega
      · rw [if_neg htag] at h
        cases hpn : parseNodeF fuel s3 with
        | none => rw [hpn] at h; simp at h
        | some r =>
          rw [hpn] at h
          cases r with
          | error f => simp at h
          | ok q =>
            obtain ⟨mynode, s4⟩ := q
            have hs4le : s4.length ≤ s.length :=
              Nat.le_trans (ihN _ _ _ hpn) hs3le
            simp only at h
            cases hnc : isNextCloseTag s4 tg with
            | error f => rw [hnc] at h; simp at h
            | ok p =>
              obtain ⟨b, s5⟩ := p
              rw [hnc] at h
              have hs5le := isNextCloseTag_length _ _ _ _ hnc
              cases b with
              | true =>
                simp only [Option.some.injEq, Except.ok.injEq, Prod.mk.injEq] at h
                obtain ⟨_, hs1⟩ := h
                subst hs1
                omega
              | false =>
                simp only at h
                split at h
                · simp at h
                · cases hrec : parseLoopF fuel s5 tg (c + 1) with
                  | none => rw [hrec] at h; simp at h
                  | some r2 =>
                    rw [hrec] at h
                    cases r2 with
                    | error f => simp at h
                    | ok q2 =>
                      obtain ⟨kidsRest, s6⟩ := q2
                      simp only [Option.some.injEq, Except.ok.injEq, Prod.mk.injEq] at h
                      obtain ⟨_, hs1⟩ := h
                      subst hs1
                      have := ihL _ _ _ _ _ hrec
                      omega

theorem parseF_total : ∀ fuel : Nat,
    (∀ s : List Char, 32 * s.length + 32 ≤ fuel → (parseNodeF fuel s).isSome = true) ∧
    (∀ s tg : List Char, ∀ c : Nat, c ≤ 30 → 32 * s.length + 63 - c ≤ fuel →
        (parseLoopF fuel s tg c).isSome = true) := by
  intro fuel
  induction fuel with
  | zero =>
    constructor
    · intro s hle; omega
    · intro s tg c hc hle; omega
  | succ fuel ih =>
    obtain ⟨ihN, ihL⟩ := ih
    constructor
    · intro s hle
      simp only [parseNodeF]
      cases hfe : findNextElement s with
      | error f => simp
      | ok p =>
        obtain ⟨oe, s2⟩ := p
        cases oe with
        | none => simp
        | some e =>
          simp only
          by_cases hsc : e.isSelfClosing
          · rw [if_pos hsc]; simp
          · rw [if_neg hsc]
            have hlen := findNextElement_some_length _ _ _ hfe
            have hloop := ihL s2 e.tagName 0 (by omega) (by omega)
            cases hl : parseLoopF fuel s2 e.tagName 0 with
            | none => rw [hl] at hloop; simp at hloop
            | some r =>
              cases r with
              | error f => simp
              | ok q => obtain ⟨children, s3⟩ := q; simp
    · intro s tg c hc hle
      simp only [parseLoopF, getNextTextAndElement]
      set te := classify (removeHeadSpaces (removeHeadSpaces s)) with hte
      set s2 := removeHeadSpaces (removeHeadSpaces s) with hs2
      have hs2le : s2.length ≤ s.length := by
        rw [hs2]
        exact Nat.le_trans (removeHeadSpaces_length_le _) (removeHeadSpaces_length_le s)
      have hs3le : (if te.text = [] then s2 else cutHeadStr s2 te.text.length).length
          ≤ s.length := by
        split
        · exact hs2le
        · simp only [cutHeadStr, List.length_drop]
          omega
      set s3 := if te.text = [] then s2 else cutHeadStr s2 te.text.length with hs3
      have hclose : ∀ s4 : List Char, s4.length ≤ s.length → ∀ mynode : Option PNode,
          ((match isNextCloseTag s4 tg with
            | .error f => some (Except.error f)
            | .ok (true, s5) =>
              some (Except.ok ((if te.text = [] then [] else [PNode.text te.text]) ++
                (match mynode with | some n => [n] | none => []), s5))
            | .ok (false, s5) =>
              if c + 1 > 30 then some (Except.error Fault.loopFault)
              else
                match parseLoopF fuel s5 tg (c + 1) with
                | none => none
                | some (.error f) => some (Except.error f)
                | some (.ok (kidsRest, s6)) =>
                  some (Except.ok (((if te.text = [] then [] else [PNode.text te.text]) ++
                    (match mynode with | some n => [n] | none => [])) ++ kidsRest, s6))) :
            Option (Except Fault (List PNode × List Char))).isSome = true := by
        intro s4 hs4le mynode
        cases hnc : isNextCloseTag s4 tg with
        | error f => simp
        | ok p =>
          obtain ⟨b, s5⟩ := p
          have hs5le := isNextCloseTag_length _ _ _ _ hnc
          cases b with
          | true => simp
          | false =>
            simp only
            by_cases hcnt : c + 1 > 30
            · rw [if_pos hcnt]; simp
            · rw [if_neg hcnt]
              have hrec := ihL s5 tg (c + 1) (by omega) (by omega)
              cases hl : parseLoopF fuel s5 tg (c + 1) with
              | none => rw [hl] at hrec; simp at hrec
              | some r =>
                cases r with
                | error f => simp
                | ok q => obtain ⟨kidsRest, s6⟩ := q; simp
      by_cases htag : te.tag = []
      · rw [if_pos htag]
        simp only
        exact hclose s3 hs3le none
      · rw [if_neg htag]
        have hpn := ihN s3 (by omega)
        cases hp : parseNodeF fuel s3 with
        | none => rw [hp] at hpn; simp at hpn
        | some r =>
          cases r with
          | error f => simp
          | ok q =>
            obtain ⟨mynode, s4⟩ := q
            have hs4le : s4.length ≤ s.length :=
              Nat.le_trans ((parseF_length fuel).1 _ _ _ hp) hs3le
            simp only
            exact hclose s4 hs4le mynode

theorem parseNode_total (s : List Char) : (parseNodeF (parseFuel s) s).isSome = true :=
  (parseF_total (parseFuel s)).1 s (Nat.le_refl _)

theorem parseNode_eq (s : List Char) (r : Except Fault (Option PNode × List Char))
    (h : parseNodeF (parseFuel s) s = some r) : parseNode s = r := by
  unfold parseNode
  rw [h]
  rfl

mutual

/-- Well-shapedness of a node as produced by the tree builder: an
attribute is never a tree node, an element whose isSelfClosing flag
is set has no children, and all children are recursively
well-shaped. -/
def goodNode : PNode → Bool
  | .text _ => true
  | .attribute _ _ => false
  | .element _ _ sc _ children => (!sc || children.isEmpty) && goodChildren children

/-- Well-shapedness of a children list: every entry is a well-shaped
text or element node. -/
def goodChildren : List PNode → Bool
  | [] => true
  | n :: rest => goodNode n && goodChildren rest

end

theorem goodChildren_append : ∀ l1 l2 : List PNode,
    goodChildren l1 = true → goodChildren l2 = true → goodChildren (l1 ++ l2) = true := by
  intro l1
  induction l1 with
  | nil => intro l2 _ h2; simpa using h2
  | cons n rest ih =>
    intro l2 h1 h2
    simp only [goodChildren, Bool.and_eq_true] at h1
    simp only [List.cons_append, goodChildren, Bool.and_eq_true]
    exact ⟨h1.1, ih l2 h1.2 h2⟩

theorem parseF_good : ∀ fuel : Nat,
    (∀ s : List Char, ∀ n : PNode, ∀ s1 : List Char,
        parseNodeF fuel s = some (.ok (some n, s1)) → goodNode n = true) ∧
    (∀ s tg : List Char, ∀ c : Nat, ∀ kids : List PNode, ∀ s1 : List Char,
        parseLoopF fuel s tg c = some (.ok (kids, s1)) → goodChildren kids = true) := by
  intro fuel
  induction fuel with
  | zero =>
    constructor
    · intro s n s1 h; simp [parseNodeF] at h
    · intro s tg c kids s1 h; simp [parseLoopF] at h
  | succ fuel ih =>
    obtain ⟨ihN, ihL⟩ := ih
    constructor
    · intro s n s1 h
      simp only [parseNodeF] at h
      cases hfe : findNextElement s with
      | error f => rw [hfe] at h; simp at h
      | ok p =>
        obtain ⟨oe, s2⟩ := p
        rw [hfe] at h
        cases oe with
        | none => simp at h
        | some e =>
          simp only at h
          by_cases hsc : e.isSelfClosing
          · rw [if_pos hsc] at h
            simp only [Option.some.injEq, Except.ok.injEq, Prod.mk.injEq,
              Option.some.injEq] at h
            obtain ⟨hn, _⟩ := h
            subst hn
            simp [ElementData.toNode, goodNode, goodChildren]
          · rw [if_neg hsc] at h
            cases hloop : parseLoopF fuel s2 e.tagName 0 with
            | none => rw [hloop] at h; simp at h
            | some r =>
              rw [hloop] at h
              cases r with
              | error f => simp at h
              | ok q =>
                obtain ⟨children, s3⟩ := q
                simp only [Option.some.injEq, Except.ok.injEq, Prod.mk.injEq] at h
                obtain ⟨hn, _⟩ := h
                subst hn
                have hkids := ihL _ _ _ _ _ hloop
                have hsc2 : e.isSelfClosing = false := by
                  cases hx : e.isSelfClosing
                  · rfl
                  · exact absurd hx hsc
                simp [ElementData.toNode, goodNode, hkids, hsc2]
    · intro s tg c kids s1 h
      simp only [parseLoopF, getNextTextAndElement] at h
      set te := classify (removeHeadSpaces (removeHeadSpaces s)) with hte
      set s2 := removeHeadSpaces (removeHeadSpaces s) with hs2
      set s3 := if te.text = [] then s2 else cutHeadStr s2 te.text.length with hs3
      have hkids0 : goodChildren (if te.text = [] then [] else [PNode.text te.text]) = true := by
        split <;> simp [goodChildren, goodNode]
      have hfin : ∀ mynode : Option PNode,
          goodChildren (match mynode with | some n => [n] | none => []) = true →
          ∀ s4 : List Char,
          ((match isNextCloseTag s4 tg with
            | .error f => some (Except.error f)
            | .ok (true, s5) =>
              some (Except.ok ((if te.text = [] then [] else [PNode.text te.text]) ++
                (match mynode with | some n => [n] | none => []), s5))
            | .ok (false, s5) =>
              if c + 1 > 30 then some (Except.error Fault.loopFault)
              else
                match parseLoopF fuel s5 tg (c + 1) with
                | none => none
                | some (.error f) => some (Except.error f)
                | some (.ok (kidsRest, s6)) =>
                  some (Except.ok (((if te.text = [] then [] else [PNode.text te.text]) ++
                    (match mynode with | some n => [n] | none => [])) ++ kidsRest, s6))) :
            Option (Except Fault (List PNode × List Char))) = some (.ok (kids, s1)) →
          goodChildren kids = true := by
        intro mynode hmy s4 hm
        cases hnc : isNextCloseTag s4 tg with
        | error f => rw [hnc] at hm; simp at hm
        | ok p =>
          obtain ⟨b, s5⟩ := p
          rw [hnc] at hm
          cases b with
          | true =>
            simp only [Option.some.injEq, Except.ok.injEq, Prod.mk.injEq] at hm
            obtain ⟨hk, _⟩ := hm
            subst hk
            exact goodChildren_append _ _ hkids0 hmy
          | false =>
            simp only at hm
            split at hm
            · simp at hm
            · cases hrec : parseLoopF fuel s5 tg (c + 1) with
              | none => rw [hrec] at hm; simp at hm
              | some r =>
                rw [hrec] at hm
                cases r with
                | error f => simp at hm
                | ok q =>
                  obtain ⟨kidsRest, s6⟩ := q
                  simp only [Option.some.injEq, Except.ok.injEq, Prod.mk.injEq] at hm
                  obtain ⟨hk, _⟩ := hm
                  subst hk
                  exact goodChildren_append _ _
                    (goodChildren_append _ _ hkids0 hmy) (ihL _ _ _ _ _ hrec)
      by_cases htag : te.tag = []
      · rw [if_pos htag] at h
        simp only at h
        exact hfin none (by simp [goodChildren]) s3 h
      · rw [if_neg htag] at h
        cases hp : parseNodeF fuel s3 with
        | none => rw [hp] at h; simp at h
        | some r =>
          rw [hp] at h
          cases r with
          | error f => simp at h
          | ok q =>
            obtain ⟨mynode, s4⟩ := q
            simp only at h
            refine hfin mynode ?_ s4 h
            cases mynode with
            | none => simp [goodChildren]
            | some n => simp [goodChildren, ihN _ _ _ hp]

theorem jsSplitEq_ne_nil : ∀ m : List Char, jsSplitEq m ≠ [] := by
  intro m
  cases m with
  | nil => simp [jsSplitEq]
  | cons c cs =>
    unfold jsSplitEq
    split
    · simp
    · split
      · simp
      · simp

theorem jsSplitEq_head : ∀ m : List Char,
    (jsSplitEq m).getD 0 [] = m.takeWhile (fun c => !(c = '=')) := by
  intro m
  induction m with
  | nil => simp [jsSplitEq]
  | cons c cs ih =>
    unfold jsSplitEq
    by_cases hc : c = '='
    · rw [if_pos hc]
      subst hc
      simp [List.takeWhile_cons]
    · rw [if_neg hc]
      cases hs : jsSplitEq cs with
      | nil => exact absurd hs (jsSplitEq_ne_nil cs)
      | cons p ps =>
        rw [hs] at ih
        simp only [List.getD_cons_zero] at ih
        simp [List.takeWhile_cons, hc, ← ih]

theorem jsSplitEq_second : ∀ m : List Char,
    (jsSplitEq m).getD 1 [] =
      ((m.dropWhile (fun c => !(c = '='))).drop 1).takeWhile (fun c => !(c = '=')) := by
  intro m
  induction m with
  | nil => simp [jsSplitEq]
  | cons c cs ih =>
    unfold jsSplitEq
    by_cases hc : c = '='
    · rw [if_pos hc]
      subst hc
      simp only [List.dropWhile_cons]
      have hh := jsSplitEq_head cs
      simpa using hh
    · rw [if_neg hc]
      cases hs : jsSplitEq cs with
      | nil => exact absurd hs (jsSplitEq_ne_nil cs)
      | cons p ps =>
        rw [hs] at ih
        simp only [List.dropWhile_cons, hc] at *
        simp only [List.getD_cons_succ] at ih ⊢
        rw [ih]
        simp [hc]

theorem isSelfClosingTag_eq_isSuffixOf (t : List Char) :
    isSelfClosingTag t = List.isSuffixOf [' ', '/', '>'] t := rfl

theorem takeToGt_append : ∀ u w : List Char,
    (∀ x ∈ u, ¬(x = '>') ∧ isLineTerm x = false) →
    takeToGt (u ++ '>' :: w) = some (u ++ ['>']) := by
  intro u
  induction u with
  | nil => intro w _; simp [takeToGt]
  | cons x xs ih =>
    intro w hu
    obtain ⟨hx1, hx2⟩ := hu x (by simp)
    simp only [List.cons_append, takeToGt]
    rw [if_neg hx1, if_neg (by simp [hx2])]
    simp only [List.append_eq]
    rw [ih w (fun y hy => hu y (by simp [hy]))]
    simp

theorem isAlnum_not_lineTerm (c : Char) (hc : isAlnum c = true) :
    ¬ (isLineTerm c = true) := by
  unfold isLineTerm
  simp only [Bool.or_eq_true, decide_eq_true_eq]
  intro h
  have hd : c = '\n' ∨ c = '\r' ∨ c = '\u2028' ∨ c = '\u2029' := by tauto
  rcases hd with rfl | rfl | rfl | rfl <;> revert hc <;> decide

/-! The claims. -/

/-- C1, counterexample to the claim as stated: on the input with an
open tag never closed by a greater-than, the parse aborts with a
TypeError (the null whole-tag match of findNextElement is
dereferenced), which is neither a returned result nor the
unbounded-loop fault. -/
theorem claim_C1_counterexample :
    parseNode "<div".toList = Except.error Fault.typeError ∧
    Fault.typeError ≠ Fault.loopFault :=
  ⟨rfl, by decide⟩

/-- C1, amended: parseNode terminates on every input string (the
fuel bound of the fueled embedding never runs out): it either
returns a result (an element node or null together with the final
cursor), or aborts with the unbounded-loop fault when the
child-collection loop guard for one element exceeds 30 iterations,
or aborts with a TypeError when a null regex match is dereferenced
(an open or close tag with no terminating greater-than); no input
makes it run forever.  The unbounded-loop fault is reachable, as on
the never-closed element input below. -/
theorem claim_C1 :
    (∀ s : List Char, (parseNodeF (parseFuel s) s).isSome = true) ∧
    (∀ s : List Char, (∃ r, parseNode s = Except.ok r) ∨
      parseNode s = Except.error Fault.loopFault ∨
      parseNode s = Except.error Fault.typeError) ∧
    parseNode "<div>".toList = Except.error Fault.loopFault := by
  refine ⟨parseNode_total, ?_, rfl⟩
  intro s
  cases h : parseNode s with
  | ok r => exact Or.inl ⟨r, rfl⟩
  | error f =>
    cases f with
    | loopFault => exact Or.inr (Or.inl rfl)
    | typeError => exact Or.inr (Or.inr rfl)

/-- C2, counterexample to the claim as stated: for the tag whose
double-quoted attribute value contains an equals sign, the produced
value is the text between the first and second equals of the match
(with no quote stripping applying), not the whole text after the
first equals with its quotes stripped. -/
theorem claim_C2_counterexample :
    getProps "<div a=\"b=c\">".toList = [⟨"a".toList, "\"b".toList⟩] ∧
    getProps "<div a=\"b=c\">".toList ≠ [⟨"a".toList, "b=c".toList⟩] := by
  constructor
  · decide
  · decide

/-- C2, amended: getProps returns one AttributeNode per
non-overlapping match of the double-quoted key-value pattern, in
left-to-right match order (empty when there are no matches); for
each match the name is the text before the first equals of the
match, and the value is the text strictly between the first equals
and the following equals of the match (the whole text after the
first equals when there is no second one), run through the global
quote-stripping substitution. -/
theorem claim_C2 : ∀ tag : List Char,
    getProps tag = (scanAttrs tag).map (fun m =>
      { name := m.takeWhile (fun c => !(c = '='))
        value := replQuotes (((m.dropWhile (fun c => !(c = '='))).drop 1).takeWhile
          (fun c => !(c = '='))) }) := by
  intro tag
  unfold getProps
  apply List.map_congr_left
  intro m _
  rw [← jsSplitEq_head, ← jsSplitEq_second]

/-- C3, counterexample to the claim as stated: on a cursor with
leading whitespace and no close tag, isNextCloseTag reports no match
yet changes the cursor (its unconditional whitespace skip persists),
so the cursor is not left unmodified. -/
theorem claim_C3_counterexample :
    isNextCloseTag " a".toList "div".toList = Except.ok (false, "a".toList) ∧
    "a".toList ≠ " a".toList :=
  ⟨rfl, by decide⟩

/-- C3, amended: whenever isNextCloseTag reports no match, the
cursor equals the entry source with its leading whitespace removed
(the whitespace skip is the only modification); whenever it reports
a match, the cursor is the whitespace-skipped source with exactly
the full close-tag text consumed. -/
theorem claim_C3 : ∀ s tg : List Char, ∀ b : Bool, ∀ s1 : List Char,
    isNextCloseTag s tg = Except.ok (b, s1) →
    (b = false → s1 = removeHeadSpaces s) ∧
    (b = true → ∃ t, matchCloseTagAll (removeHeadSpaces s) = some t ∧
        s1 = cutHeadStr (removeHeadSpaces s) t.length) := by
  intro s tg b s1 h
  unfold isNextCloseTag at h
  simp only at h
  split at h
  · simp only [Except.ok.injEq, Prod.mk.injEq] at h
    obtain ⟨hb, hs1⟩ := h
    subst hb
    constructor
    · intro _; exact hs1.symm
    · intro hcon; exact absurd hcon (by simp)
  · split at h
    · cases hm : matchCloseTagAll (removeHeadSpaces s) with
      | none => rw [hm] at h; simp at h
      | some t =>
        rw [hm] at h
        simp only [Except.ok.injEq, Prod.mk.injEq] at h
        obtain ⟨hb, hs1⟩ := h
        subst hb
        constructor
        · intro hcon; exact absurd hcon (by simp)
        · intro _; exact ⟨t, rfl, hs1.symm⟩
    · simp only [Except.ok.injEq, Prod.mk.injEq] at h
      obtain ⟨hb, hs1⟩ := h
      subst hb
      constructor
      · intro _; exact hs1.symm
      · intro hcon; exact absurd hcon (by simp)

/-- Witness for C3 at a concrete matching cursor: the close tag text
is consumed in full. -/
theorem claim_C3_witness :
    ((true = false → ([] : List Char) = removeHeadSpaces "</div>".toList) ∧
     (true = true → ∃ t, matchCloseTagAll (removeHeadSpaces "</div>".toList) = some t ∧
        ([] : List Char) = cutHeadStr (removeHeadSpaces "</div>".toList) t.length)) :=
  claim_C3 "</div>".toList "div".toList true [] rfl

/-- C4: the trim asymmetry of the classifier.  When the classifier
lands in the text-then-self-closing-tag case or the
text-then-end-tag case, the returned text is the matched leading
text trimmed; when it lands in the text-then-start-tag case, the
returned text is the matched leading text untrimmed. -/
theorem claim_C4 : ∀ s : List Char,
    (∀ t st : List Char, isStartOrSelfFinishTag s = none → isFinishTag s = none →
        isTextAndSelfCloseTag s = some (t, st) → (classify s).text = jsTrim t) ∧
    (∀ t tg : List Char, isStartOrSelfFinishTag s = none → isFinishTag s = none →
        isTextAndSelfCloseTag s = none → isTextAndFinishTag s = some (t, tg) →
        (classify s).text = jsTrim t) ∧
    (∀ t tg : List Char, isStartOrSelfFinishTag s = none → isFinishTag s = none →
        isTextAndSelfCloseTag s = none → isTextAndFinishTag s = none →
        isTextAndStartTag s = some (t, tg) → (classify s).text = t) := by
  intro s
  refine ⟨?_, ?_, ?_⟩
  · intro t st h1 h2 h3
    unfold classify
    rw [h1, h2, h3]
  · intro t tg h1 h2 h3 h4
    unfold classify
    rw [h1, h2, h3, h4]
  · intro t tg h1 h2 h3 h4 h5
    unfold classify
    rw [h1, h2, h3, h4, h5]

/-- Witness for C4 at three concrete sources, one per classifier
case: the first two texts are trimmed, the third is not. -/
theorem claim_C4_witness :
    (classify "x <a />".toList).text = jsTrim "x ".toList ∧
    (classify "x </a>".toList).text = jsTrim "x ".toList ∧
    (classify "x <a>".toList).text = "x ".toList :=
  ⟨(claim_C4 "x <a />".toList).1 "x ".toList "<a />".toList rfl rfl rfl,
   (claim_C4 "x </a>".toList).2.1 "x ".toList "</a>".toList rfl rfl rfl rfl,
   (claim_C4 "x <a>".toList).2.2 "x ".toList "<a>".toList rfl rfl rfl rfl rfl⟩

/-- C5: an element produced by findNextElement is self-closing
exactly when its tag text ends with a space, a slash and a
greater-than in that order. -/
theorem claim_C5 : ∀ s : List Char, ∀ e : ElementData, ∀ s1 : List Char,
    findNextElement s = Except.ok (some e, s1) →
    (e.isSelfClosing = true ↔ List.isSuffixOf [' ', '/', '>'] e.tag = true) := by
  intro s e s1 h
  unfold findNextElement at h
  simp only at h
  split at h
  · cases hm : matchTagAll (removeHeadSpaces s) with
    | none => rw [hm] at h; simp at h
    | some tag =>
      rw [hm] at h
      simp only [Except.ok.injEq, Prod.mk.injEq, Option.some.injEq] at h
      obtain ⟨he, _⟩ := h
      subst he
      rw [show (mkElement tag).isSelfClosing = isSelfClosingTag tag from rfl]
      rw [show (mkElement tag).tag = tag from rfl]
      rw [isSelfClosingTag_eq_isSuffixOf]
  · simp at h

/-- Witness for C5: the tag written less-than img slash greater-than
with no space before the slash is not recognized as self-closing. -/
theorem claim_C5_witness :
    ((⟨"<img/>".toList, "img".toList, false, []⟩ : ElementData).isSelfClosing = true ↔
      List.isSuffixOf [' ', '/', '>']
        (⟨"<img/>".toList, "img".toList, false, []⟩ : ElementData).tag = true) :=
  claim_C5 "<img/>".toList ⟨"<img/>".toList, "img".toList, false, []⟩ [] rfl

/-- C6: on any input that, after the whitespace skip, does not start
with a less-than followed by an alphanumeric, parseNode returns null
with no fault, leaving the whitespace-skipped cursor. -/
theorem claim_C6 : ∀ s : List Char,
    startsWithLtAlnum (removeHeadSpaces s) = false →
    parseNode s = Except.ok (none, removeHeadSpaces s) := by
  intro s h
  apply parseNode_eq
  have hsucc : parseFuel s = (32 * s.length + 31) + 1 := by
    simp [parseFuel]
  rw [hsucc]
  simp only [parseNodeF]
  unfold findNextElement
  simp [h]

/-- Witness for C6 on a plain text input. -/
theorem claim_C6_witness :
    parseNode "hello".toList = Except.ok (none, "hello".toList) :=
  claim_C6 "hello".toList rfl

/-- C7: parsing the div-with-class-and-text input yields exactly one
TextNode child with the text content, and the close tag is fully
consumed, leaving an empty cursor. -/
theorem claim_C7 :
    parseNode "<div class=\"x\">hello</div>".toList =
      Except.ok (some (PNode.element "<div class=\"x\">".toList "div".toList false
        [⟨"class".toList, "x".toList⟩] [PNode.text "hello".toList]), []) := rfl

/-- C8: parsing the nested input yields a div element whose only
child is a span element whose only child is the TextNode a. -/
theorem claim_C8 :
    parseNode "<div><span>a</span></div>".toList =
      Except.ok (some (PNode.element "<div>".toList "div".toList false []
        [PNode.element "<span>".toList "span".toList false []
          [PNode.text "a".toList]]), []) := rfl

/-- C9: every element node returned by a fault-free parse is
well-shaped: children lists hold only text and element nodes, never
attribute nodes, and a self-closing element has no children, all the
way down the tree. -/
theorem claim_C9 : ∀ s : List Char, ∀ n : PNode, ∀ s1 : List Char,
    parseNode s = Except.ok (some n, s1) → goodNode n = true := by
  intro s n s1 h
  have htot := parseNode_total s
  cases hp : parseNodeF (parseFuel s) s with
  | none => rw [hp] at htot; simp at htot
  | some r =>
    have heq := parseNode_eq s r hp
    rw [heq] at h
    subst h
    exact (parseF_good (parseFuel s)).1 s n s1 hp

/-- Witness for C9 on a concrete parsed tree. -/
theorem claim_C9_witness :
    goodNode (PNode.element "<p>".toList "p".toList false []
      [PNode.text "hi".toList]) = true :=
  claim_C9 "<p>hi</p>".toList
    (PNode.element "<p>".toList "p".toList false [] [PNode.text "hi".toList]) [] rfl

/-- C10: when the open tag contains a greater-than inside a
double-quoted attribute value, the element tag is the prefix of the
source up to the first greater-than, not the full open tag; the
cursor advances only past that prefix (here stated for any source of
that shape whose remainder does not start with whitespace), leaving
the rest of the attribute text in the source. -/
theorem claim_C10 : ∀ c : Char, ∀ u w : List Char,
    isAlnum c = true →
    (∀ x ∈ u, ¬(x = '>') ∧ isLineTerm x = false) →
    removeHeadSpaces w = w →
    findNextElement ('<' :: c :: (u ++ '>' :: w)) =
      Except.ok (some (mkElement ('<' :: c :: (u ++ ['>']))), w) := by
  intro c u w hc hu hw
  unfold findNextElement
  have h0 : removeHeadSpaces ('<' :: c :: (u ++ '>' :: w)) = '<' :: c :: (u ++ '>' :: w) := by
    simp [removeHeadSpaces, List.dropWhile_cons, isCtxSpace]
  rw [h0]
  have h1 : startsWithLtAlnum ('<' :: c :: (u ++ '>' :: w)) = true := by
    simp [startsWithLtAlnum, hc]
  have hcl : isLineTerm c = false := by
    cases hx : isLineTerm c
    · rfl
    · exact absurd hx (isAlnum_not_lineTerm c hc)
  have h2 : matchTagAll ('<' :: c :: (u ++ '>' :: w)) = some ('<' :: c :: (u ++ ['>'])) := by
    unfold matchTagAll
    simp only [hcl, Bool.false_eq_true, if_false, List.append_eq]
    rw [takeToGt_append u w hu]
    rfl
  have h3 : cutHeadStr ('<' :: c :: (u ++ '>' :: w)) ('<' :: c :: (u ++ ['>'])).length = w := by
    simp only [cutHeadStr, List.length_cons]
    rw [show u ++ '>' :: w = (u ++ ['>']) ++ w by simp]
    rw [show (u ++ ['>']).length + 1 + 1 = (u ++ ['>']).length + 2 by omega]
    rw [List.drop_succ_cons, List.drop_succ_cons, List.drop_left]
  simp only [h1, if_true, h2]
  rw [h3, hw]

/-- Witness for C10 on the motivating input: the tag field stops at
the greater-than inside the title attribute value and the remainder
of the attribute text stays in the source. -/
theorem claim_C10_witness :
    findNextElement "<div title=\"a>b\">".toList =
      Except.ok (some (mkElement "<div title=\"a>".toList), "b\">".toList) :=
  claim_C10 'd' "iv title=\"a".toList "b\">".toList (by decide) (by decide) rfl
